import Mathlib

/-!
Verification of the core of `js-crud-service-client`: the query/filter
serialization (`queryFromFilter` in `src/utils.ts`), the NDJSON export
decoder (`CrudClient.getExport` in `src/types.ts`), the HTTP-error
classifier (`getGotErrorStatusCode` / `getGotErrorMessage` /
`getHttpErrors` in `src/utils.ts`) and the delete-many pre-flight guard
(`CrudClient.delete` in `src/types.ts`).

JavaScript strings are modelled as `List Char`; JSON values as the
inductive `JsonValue` (numbers restricted to integers: the repository
only ever serializes integral limits/skips and opaque records, and IEEE
doubles are not representable shallowly).  `JSON.stringify` /
`JSON.parse` are modelled by an executable compact serializer and a
fuel-based recursive-descent parser over the same grammar.
-/

namespace CrudSpec

/-! ## Characters -/

/-- The newline character, the NDJSON record separator. -/
def nlChar : Char := Char.ofNat 10

/-- The double-quote character delimiting JSON strings. -/
def quoteChar : Char := Char.ofNat 34

/-- The backslash character starting a JSON string escape. -/
def bslashChar : Char := Char.ofNat 92

/-- The opening-brace character of a JSON object. -/
def lbraceChar : Char := Char.ofNat 123

/-- The closing-brace character of a JSON object. -/
def rbraceChar : Char := Char.ofNat 125

/-- The decimal digit character for `n` (defined for `n < 10`, clamped at 9). -/
def digitChar : Nat → Char
  | 0 => '0' | 1 => '1' | 2 => '2' | 3 => '3' | 4 => '4'
  | 5 => '5' | 6 => '6' | 7 => '7' | 8 => '8' | _ => '9'

/-- Is `c` a decimal digit? -/
def isDigitChar (c : Char) : Bool :=
  Nat.ble 48 c.toNat && Nat.ble c.toNat 57

/-- Numeric value of a digit character. -/
def digitVal (c : Char) : Nat := c.toNat - 48

/-- Whitespace in the sense of JavaScript `String.prototype.trim`
(ASCII subset: space, tab, newline, carriage return, vertical tab, form feed). -/
def isWsChar (c : Char) : Bool :=
  c.toNat == 32 || c.toNat == 9 || c.toNat == 10 ||
  c.toNat == 13 || c.toNat == 11 || c.toNat == 12

/-! ## JSON values -/

/-- A JSON value.  Objects are ordered association lists, as JavaScript
objects are; numbers are modelled as integers (see the header comment). -/
inductive JsonValue where
  | null : JsonValue
  | bool (b : Bool) : JsonValue
  | num (n : Int) : JsonValue
  | str (s : String) : JsonValue
  | arr (elems : List JsonValue) : JsonValue
  | obj (members : List (String × JsonValue)) : JsonValue
deriving Repr

/-! ## Decimal numerals (model of JavaScript `String(n)` for integers) -/

/-- Decimal digits of `n`, most significant first; `fuel`-bounded helper
(correct whenever `n ≤ fuel`, see `parseDigits_natToDigitsAux`). -/
def natToDigitsAux : Nat → Nat → List Char
  | 0, n => [digitChar n]
  | fuel + 1, n =>
    if n < 10 then [digitChar n]
    else natToDigitsAux fuel (n / 10) ++ [digitChar (n % 10)]

/-- Decimal digits of `n`, most significant first. -/
def natToDigits (n : Nat) : List Char := natToDigitsAux n n

/-- Decimal text of an integer, with a leading minus sign when negative:
the model of JavaScript number-to-string conversion for integral values. -/
def intToChars (n : Int) : List Char :=
  if n < 0 then '-' :: natToDigits n.natAbs else natToDigits n.natAbs

/-! ## Serializer: model of `JSON.stringify` (compact output) -/

/-- The characters a JSON string escape for `c` emits: the two-character
escapes used by `JSON.stringify` for quote, backslash and the common
control characters; every other character is emitted verbatim. -/
def escapeChar (c : Char) : List Char :=
  if c = quoteChar then [bslashChar, quoteChar]
  else if c = bslashChar then [bslashChar, bslashChar]
  else if c = nlChar then [bslashChar, 'n']
  else if c = Char.ofNat 9 then [bslashChar, 't']
  else if c = Char.ofNat 13 then [bslashChar, 'r']
  else if c = Char.ofNat 8 then [bslashChar, 'b']
  else if c = Char.ofNat 12 then [bslashChar, 'f']
  else [c]

/-- Escape a whole string body. -/
def escChars : List Char → List Char
  | [] => []
  | c :: cs => escapeChar c ++ escChars cs

/-- Serialized form of a JSON string, quotes included. -/
def strQuoted (s : String) : List Char :=
  quoteChar :: (escChars s.data ++ [quoteChar])

mutual

/-- Compact serialization of a JSON value: the model of `JSON.stringify`. -/
def strChars : JsonValue → List Char
  | .null => "null".data
  | .bool true => "true".data
  | .bool false => "false".data
  | .num n => intToChars n
  | .str s => strQuoted s
  | .arr xs => '[' :: (strElems xs ++ [']'])
  | .obj ms => lbraceChar :: (strMembers ms ++ [rbraceChar])

/-- Comma-separated serialization of array elements. -/
def strElems : List JsonValue → List Char
  | [] => []
  | [v] => strChars v
  | v :: vs => strChars v ++ ',' :: strElems vs

/-- Comma-separated serialization of object members. -/
def strMembers : List (String × JsonValue) → List Char
  | [] => []
  | [(k, v)] => strQuoted k ++ ':' :: strChars v
  | (k, v) :: ms => strQuoted k ++ ':' :: strChars v ++ ',' :: strMembers ms

end

/-- `JSON.stringify` as a `String`-valued function. -/
def jsonStr (v : JsonValue) : String := String.mk (strChars v)

/-! ## Parser: model of `JSON.parse` -/

/-- Consume the maximal run of decimal digits, accumulating their value
onto `acc`; returns the value and the unconsumed remainder. -/
def parseDigits (acc : Nat) : List Char → Nat × List Char
  | [] => (acc, [])
  | c :: cs =>
    if isDigitChar c then parseDigits (acc * 10 + digitVal c) cs
    else (acc, c :: cs)

/-- Characters a string escape introduced by a backslash denotes. -/
def unescapeChar (e : Char) : Option Char :=
  if e = quoteChar then some quoteChar
  else if e = bslashChar then some bslashChar
  else if e = 'n' then some nlChar
  else if e = 't' then some (Char.ofNat 9)
  else if e = 'r' then some (Char.ofNat 13)
  else if e = 'b' then some (Char.ofNat 8)
  else if e = 'f' then some (Char.ofNat 12)
  else if e = '/' then some '/'
  else none

mutual

/-- Parse the body of a JSON string after the opening quote, up to and
including the closing quote; fails on an unterminated string or a bad
escape. -/
def parseStringChars : List Char → Option (List Char × List Char)
  | [] => none
  | c :: cs =>
    if c = quoteChar then some ([], cs)
    else if c = bslashChar then parseStringEsc cs
    else (parseStringChars cs).map (fun p => (c :: p.1, p.2))

/-- Parse the remainder of a string body right after a backslash. -/
def parseStringEsc : List Char → Option (List Char × List Char)
  | [] => none
  | e :: cs1 =>
    match unescapeChar e with
    | none => none
    | some d => (parseStringChars cs1).map (fun p => (d :: p.1, p.2))

end

/-- Does the list start with a decimal digit? -/
def headIsDigit : List Char → Bool
  | [] => false
  | c :: _ => isDigitChar c

/-- Continuation after parsing one array element: a comma demands a
further element, a closing bracket finishes the array. -/
def elemsCont (vres : Option (JsonValue × List Char))
    (pe : List Char → Option (List JsonValue × List Char)) :
    Option (List JsonValue × List Char) :=
  match vres with
  | none => none
  | some (v, rest) =>
    match rest with
    | ',' :: rest1 => (pe rest1).map (fun p => (v :: p.1, p.2))
    | ']' :: rest1 => some ([v], rest1)
    | _ => none

/-- Continuation after parsing one member value: a comma demands a
further member, a closing brace finishes the object. -/
def memberValCont (k : String) (vres : Option (JsonValue × List Char))
    (pm : List Char → Option (List (String × JsonValue) × List Char)) :
    Option (List (String × JsonValue) × List Char) :=
  match vres with
  | none => none
  | some (v, rest2) =>
    match rest2 with
    | ',' :: rest3 => (pm rest3).map (fun p => ((k, v) :: p.1, p.2))
    | rest3 =>
      if rest3.head? = some rbraceChar then some ([(k, v)], rest3.tail)
      else none

/-- Continuation after the opening quote of an object key: the parsed
key must be followed by a colon and the member's value. -/
def memberKeyCont (kres : Option (List Char × List Char))
    (pv : List Char → Option (JsonValue × List Char))
    (pm : List Char → Option (List (String × JsonValue) × List Char)) :
    Option (List (String × JsonValue) × List Char) :=
  match kres with
  | none => none
  | some (k, rest) =>
    match rest with
    | ':' :: rest1 => memberValCont (String.mk k) (pv rest1) pm
    | _ => none

mutual

/-- Recursive-descent parser for one JSON value (compact grammar as
produced by `JSON.stringify`); `fuel` bounds the recursion depth and is
irrelevant as long as it is at least the node count of the value. -/
def parseVal : Nat → List Char → Option (JsonValue × List Char)
  | 0, _ => none
  | fuel + 1, cs =>
    match cs with
    | [] => none
    | c :: cs1 =>
      if isDigitChar c then
        let p := parseDigits 0 (c :: cs1)
        some (.num (p.1 : Int), p.2)
      else if c = '-' then
        if headIsDigit cs1 then
          let p := parseDigits 0 cs1
          some (.num (-(p.1 : Int)), p.2)
        else none
      else if c = quoteChar then
        (parseStringChars cs1).map (fun p => (.str (String.mk p.1), p.2))
      else if c = '[' then
        if cs1.head? = some ']' then some (.arr [], cs1.tail)
        else (parseElems fuel cs1).map (fun p => (.arr p.1, p.2))
      else if c = lbraceChar then
        if cs1.head? = some rbraceChar then some (.obj [], cs1.tail)
        else (parseMembers fuel cs1).map (fun p => (.obj p.1, p.2))
      else if c = 'n' then
        match cs1 with
        | 'u' :: 'l' :: 'l' :: rest => some (.null, rest)
        | _ => none
      else if c = 't' then
        match cs1 with
        | 'r' :: 'u' :: 'e' :: rest => some (.bool true, rest)
        | _ => none
      else if c = 'f' then
        match cs1 with
        | 'a' :: 'l' :: 's' :: 'e' :: rest => some (.bool false, rest)
        | _ => none
      else none

/-- Parse one or more comma-separated array elements followed by the
closing bracket. -/
def parseElems : Nat → List Char → Option (List JsonValue × List Char)
  | 0, _ => none
  | fuel + 1, cs => elemsCont (parseVal fuel cs) (parseElems fuel)

/-- Parse one or more comma-separated `"key":value` object members
followed by the closing brace. -/
def parseMembers : Nat → List Char → Option (List (String × JsonValue) × List Char)
  | 0, _ => none
  | fuel + 1, cs =>
    match cs with
    | c :: cs1 =>
      if c = quoteChar then
        memberKeyCont (parseStringChars cs1) (parseVal fuel) (parseMembers fuel)
      else none
    | [] => none

end

/-- `JSON.parse` on a whole line: the parsed value when the entire input
is one JSON value, `none` otherwise (a thrown `SyntaxError` in the code). -/
def jsonParseL (l : List Char) : Option JsonValue :=
  match parseVal (l.length + 1) l with
  | some (v, []) => some v
  | _ => none

/-! ## NDJSON decoding (`getExport` end-of-stream handler)

The handler runs `data.split('\n').filter(line => line.trim() !== '')
.map(line => JSON.parse(line))` inside a try/catch: any line that throws
rejects the whole promise. -/

/-- `data.split('\n')`: split on every newline, keeping empty pieces
(JavaScript `String.prototype.split` semantics). -/
def splitNl : List Char → List (List Char)
  | [] => [[]]
  | c :: cs =>
    match splitNl cs with
    | [] => [[c]]
    | l :: ls => if c = nlChar then [] :: l :: ls else (c :: l) :: ls

/-- `line.trim() === ''`: the line is empty or all whitespace. -/
def lineIsBlank (l : List Char) : Bool := l.all isWsChar

/-- The data lines of an accumulated NDJSON buffer: split on newlines,
blank lines discarded. -/
def ndjsonLines (data : List Char) : List (List Char) :=
  (splitNl data).filter (fun l => !lineIsBlank l)

/-- `lines.map(line => JSON.parse(line))` inside try/catch: all parsed
records, or `none` as soon as one line throws. -/
def mapJsonParse : List (List Char) → Option (List JsonValue)
  | [] => some []
  | l :: ls =>
    match jsonParseL l with
    | none => none
    | some v => (mapJsonParse ls).map (fun vs => v :: vs)

/-- The whole end-of-stream NDJSON decode of the accumulated buffer. -/
def ndjsonParse (data : List Char) : Option (List JsonValue) :=
  mapJsonParse (ndjsonLines data)

/-! ## The export stream event loop -/

/-- A transport-level failure surfaced by `got`, as typed in the source:
an optional failed response (`error.response`, whose `body` is the
JSON-parsed error payload cast to `{message?: string}`) plus the error's
own `message` text. -/
structure ErrorBody where
  message : Option String
deriving Repr

/-- The failed HTTP response attached to a `got` `RequestError`, when
the exchange got far enough to receive one. -/
structure GotResponse where
  statusCode : Nat
  body : Option ErrorBody
deriving Repr

/-- Model of `got`'s `RequestError` as consumed by `utils.ts`. -/
structure RequestErrorModel where
  response : Option GotResponse
  message : String
deriving Repr

/-- What `getExport`'s promise can reject with: the `SyntaxError` thrown
by `JSON.parse` on a bad line, or the stream's own error object. -/
inductive ExportError where
  | parseError : ExportError
  | streamError (e : RequestErrorModel) : ExportError
deriving Repr

/-- One event delivered by the export response stream. -/
inductive Ev where
  | data (chunk : List Char) : Ev
  | ended : Ev
  | errored (e : RequestErrorModel) : Ev

/-- The `getExport` promise executor: `data` events append the chunk to
the accumulated buffer, `end` decodes the buffer and settles, `error`
settles with the stream error.  Returns `none` when no terminal event
arrives (promise never settles). -/
def runExportEvents : List Ev → List Char → Option (Except ExportError (List JsonValue))
  | [], _ => none
  | .data chunk :: evs, buf => runExportEvents evs (buf ++ chunk)
  | .ended :: _, buf =>
    match ndjsonParse buf with
    | some items => some (.ok items)
    | none => some (.error .parseError)
  | .errored e :: _, _ => some (.error (.streamError e))

/-- The buffer accumulated from a list of chunks. -/
def bufferOf (chunks : List (List Char)) : List Char :=
  chunks.foldl (fun b c => b ++ c) []

/-! ## Filter model and query encoder (`queryFromFilter`) -/

/-- The `Filter` type of `src/types.ts`: every field optional.
`mongoQuery` and `rawProjection` are opaque JSON-serializable records. -/
structure Filter where
  mongoQuery : Option (List (String × JsonValue)) := none
  limit : Option Nat := none
  skip : Option Nat := none
  projection : Option (List String) := none
  rawProjection : Option (List (String × JsonValue)) := none
  sort : Option String := none

/-- `projection.join(',')` — JavaScript `Array.prototype.join` with a
comma separator (no escaping). -/
def joinComma : List String → List Char
  | [] => []
  | [s] => s.data
  | s :: rest => s.data ++ ',' :: joinComma rest

/-- `qs.stringify` restricted to how the source uses it: keys with an
`undefined` value are dropped, every other key becomes one query entry
holding its value text.  The query string is modelled as its ordered
list of key/value entries (percent-encoding and `&`-joining are the
transport layer below the fixed key/value forms). -/
def qsStringify (pairs : List (String × Option (List Char))) : List (String × List Char) :=
  pairs.filterMap (fun p => p.2.map (fun v => (p.1, v)))

/-- The six fixed keys of the object the source passes to
`qs.stringify`, in source order, each with its optional value text:
`_q` carries the compact JSON of `mongoQuery`, `_l`/`_sk` the decimal
digits of `limit`/`skip`, `_p` the comma-joined projection, `_s` the
sort string verbatim, `_rawp` the compact JSON of `rawProjection`. -/
def filterPairs (f : Filter) : List (String × Option (List Char)) :=
  [("_q", f.mongoQuery.map (fun q => strChars (.obj q))),
   ("_l", f.limit.map natToDigits),
   ("_p", f.projection.map joinComma),
   ("_s", f.sort.map String.data),
   ("_sk", f.skip.map natToDigits),
   ("_rawp", f.rawProjection.map (fun q => strChars (.obj q)))]

/-- The query entries a present filter serializes to. -/
def queryEntries (f : Filter) : List (String × List Char) :=
  qsStringify (filterPairs f)

/-- `queryFromFilter` from `src/utils.ts`: `undefined` in, `undefined`
out; otherwise `qs.stringify` of the six fixed keys, where absent fields
pass `undefined` and hence produce no entry. -/
def queryFromFilter (filter : Option Filter) : Option (List (String × List Char)) :=
  filter.map queryEntries

/-- Number of entries of a query that carry the key `k`. -/
def keyCount (entries : List (String × List Char)) (k : String) : Nat :=
  entries.countP (fun p => decide (p.1 = k))

/-- The value of the first entry carrying key `k`, if any. -/
def lookupKey (entries : List (String × List Char)) (k : String) : Option (List Char) :=
  (entries.find? (fun p => decide (p.1 = k))).map (fun p => p.2)

/-! ## Error classifier (`getGotErrorStatusCode`, `getGotErrorMessage`,
`getHttpErrors`) -/

/-- `getGotErrorStatusCode`: the response's status code when a response
exists and its code is truthy (nonzero), `undefined` otherwise. -/
def getGotErrorStatusCode (e : RequestErrorModel) : Option Nat :=
  match e.response with
  | some r => if r.statusCode ≠ 0 then some r.statusCode else none
  | none => none

/-- The truthy `error.response?.body && error.response.body.message`
chain: a non-empty `message` string inside a present response body. -/
def responseBodyMessage (e : RequestErrorModel) : Option String :=
  match e.response with
  | none => none
  | some r =>
    match r.body with
    | none => none
    | some b =>
      match b.message with
      | none => none
      | some m => if m = "" then none else some m

/-- `getGotErrorMessage`: body message if truthy, else the error's own
message if truthy, else the fixed fallback. -/
def getGotErrorMessage (e : RequestErrorModel) : String :=
  match responseBodyMessage e with
  | some m => m
  | none => if e.message = "" then "Something went wrong" else e.message

/-- Status codes below 400 (or above 599) that the `http-errors` package
knows a reason phrase for; `createError` keeps such codes verbatim. -/
def knownNonErrorStatus (s : Nat) : Bool :=
  [100, 101, 102, 103, 200, 201, 202, 203, 204, 205, 206, 207, 208, 226,
   300, 301, 302, 303, 304, 305, 306, 307, 308].contains s

/-- The status normalization of `http-errors`' `createError`: a code
that is outside 400–599 and not a known status collapses to 500. -/
def httpErrorsStatus (s : Nat) : Nat :=
  if !knownNonErrorStatus s && (s < 400 || 600 ≤ s) then 500 else s

/-- The typed error the client surfaces: an `http-errors` `HttpError`
observed through its `statusCode` and `message`. -/
structure HttpErrorModel where
  statusCode : Nat
  message : String
deriving Repr

/-- `httpErrors(status, message)`: the classifier's messages are always
non-empty (`getGotErrorMessage_ne_empty`), so the library's default
reason-phrase fallback for an empty message never fires and the message
passes through verbatim. -/
def httpErrorsCreate (s : Nat) (msg : String) : HttpErrorModel :=
  ⟨httpErrorsStatus s, msg⟩

/-- `getHttpErrors`: `httpErrors(getGotErrorStatusCode(error) ?? 500,
getGotErrorMessage(error))`. -/
def getHttpErrors (e : RequestErrorModel) : HttpErrorModel :=
  httpErrorsCreate ((getGotErrorStatusCode e).getD 500) (getGotErrorMessage e)

/-! ## The delete-many pre-flight guard (`CrudClient.delete`) -/

/-- `lodash.isEmpty` on the optional `mongoQuery` record: `undefined`
and the empty object are empty. -/
def isEmptyMongoQuery (q : Option (List (String × JsonValue))) : Bool :=
  match q with
  | none => true
  | some [] => true
  | some (_ :: _) => false

/-- Outcome of `CrudClient.delete`, separating the local pre-flight
rejection (no HTTP request ever issued) from an issued request with the
query that was sent. -/
inductive DeleteResult where
  | localError (e : HttpErrorModel) : DeleteResult
  | issued (query : Option (List (String × List Char)))
      (outcome : Except HttpErrorModel Nat) : DeleteResult

/-- `CrudClient.delete`: throw `BadRequest('Mongo query is required')`
when `isEmpty(filter.mongoQuery)`, otherwise issue the DELETE with
`queryFromFilter(filter)` and classify any transport failure. -/
def crudDelete (filter : Filter) (exchange : Except RequestErrorModel Nat) : DeleteResult :=
  if isEmptyMongoQuery filter.mongoQuery then
    .localError ⟨400, "Mongo query is required"⟩
  else
    .issued (queryFromFilter (some filter))
      (match exchange with
       | .ok n => .ok n
       | .error e => .error (getHttpErrors e))

/-! ## Branch lemmas: how the parser consumes each syntactic head -/

theorem parseVal_null_branch (fuel : Nat) (rest : List Char) :
    parseVal (fuel + 1) ('n' :: 'u' :: 'l' :: 'l' :: rest) = some (.null, rest) := rfl

theorem parseVal_true_branch (fuel : Nat) (rest : List Char) :
    parseVal (fuel + 1) ('t' :: 'r' :: 'u' :: 'e' :: rest) = some (.bool true, rest) := rfl

theorem parseVal_false_branch (fuel : Nat) (rest : List Char) :
    parseVal (fuel + 1) ('f' :: 'a' :: 'l' :: 's' :: 'e' :: rest) = some (.bool false, rest) := rfl

theorem parseVal_str_branch (fuel : Nat) (body : List Char) :
    parseVal (fuel + 1) (quoteChar :: body) =
      (parseStringChars body).map (fun p => (.str (String.mk p.1), p.2)) := rfl

theorem parseVal_arr_branch (fuel : Nat) (cs1 : List Char) :
    parseVal (fuel + 1) ('[' :: cs1) =
      (if cs1.head? = some ']' then some (.arr [], cs1.tail)
       else (parseElems fuel cs1).map (fun p => (.arr p.1, p.2))) := rfl

theorem parseVal_obj_branch (fuel : Nat) (cs1 : List Char) :
    parseVal (fuel + 1) (lbraceChar :: cs1) =
      (if cs1.head? = some rbraceChar then some (.obj [], cs1.tail)
       else (parseMembers fuel cs1).map (fun p => (.obj p.1, p.2))) := rfl

theorem parseVal_neg_branch (fuel : Nat) (cs1 : List Char) :
    parseVal (fuel + 1) ('-' :: cs1) =
      (if headIsDigit cs1 then
        some (.num (-((parseDigits 0 cs1).1 : Int)), (parseDigits 0 cs1).2)
       else none) := rfl

theorem parseVal_digit_branch (fuel : Nat) (d : Char) (cs1 : List Char)
    (h : isDigitChar d = true) :
    parseVal (fuel + 1) (d :: cs1) =
      some (.num ((parseDigits 0 (d :: cs1)).1 : Int), (parseDigits 0 (d :: cs1)).2) := by
  simp [parseVal, h]

/-! ## Decimal digits: the parser inverts the printer -/

theorem isDigitChar_digitChar (n : Nat) : isDigitChar (digitChar n) = true := by
  rcases n with _|_|_|_|_|_|_|_|_|m <;> rfl

theorem digitVal_digitChar (n : Nat) (h : n < 10) : digitVal (digitChar n) = n := by
  rcases n with _|_|_|_|_|_|_|_|_|_|m
  all_goals first | rfl | omega

theorem digit_ne_of_not_digit (c d : Char) (hc : isDigitChar c = true)
    (hd : isDigitChar d = false) : c ≠ d := by
  intro h
  rw [h, hd] at hc
  cases hc

theorem parseDigits_step (acc : Nat) (d : Char) (cs : List Char)
    (h : isDigitChar d = true) :
    parseDigits acc (d :: cs) = parseDigits (acc * 10 + digitVal d) cs := by
  simp [parseDigits, h]

theorem parseDigits_stop (acc : Nat) (rest : List Char)
    (h : headIsDigit rest = false) : parseDigits acc rest = (acc, rest) := by
  cases rest with
  | nil => rfl
  | cons c cs => simp [headIsDigit] at h; simp [parseDigits, h]

theorem parseDigits_natToDigitsAux (fuel : Nat) :
    ∀ (n acc : Nat) (rest : List Char), n ≤ fuel →
      parseDigits acc (natToDigitsAux fuel n ++ rest) =
        parseDigits (acc * 10 ^ (natToDigitsAux fuel n).length + n) rest := by
  induction fuel with
  | zero =>
    intro n acc rest hn
    interval_cases n
    simp [natToDigitsAux, parseDigits_step, isDigitChar_digitChar, digitVal_digitChar]
  | succ fuel ih =>
    intro n acc rest hn
    by_cases h10 : n < 10
    · simp only [natToDigitsAux, if_pos h10, List.cons_append, List.nil_append,
        List.length_cons, List.length_nil]
      rw [parseDigits_step _ _ _ (isDigitChar_digitChar n),
        digitVal_digitChar n h10]
      norm_num
    · have hdiv : n / 10 ≤ fuel := by omega
      simp only [natToDigitsAux, if_neg h10, List.append_assoc, List.cons_append,
        List.nil_append, List.length_append, List.length_cons, List.length_nil]
      rw [ih (n / 10) acc (digitChar (n % 10) :: rest) hdiv,
        parseDigits_step _ _ _ (isDigitChar_digitChar (n % 10)),
        digitVal_digitChar (n % 10) (Nat.mod_lt n (by omega))]
      have : (acc * 10 ^ (natToDigitsAux fuel (n / 10)).length + n / 10) * 10 + n % 10 =
          acc * 10 ^ ((natToDigitsAux fuel (n / 10)).length + 1) + n := by
        rw [pow_succ]
        have := Nat.div_add_mod n 10
        ring_nf
        omega
      rw [this]

theorem parseDigits_natToDigits (n : Nat) (rest : List Char)
    (h : headIsDigit rest = false) :
    parseDigits 0 (natToDigits n ++ rest) = (n, rest) := by
  rw [natToDigits, parseDigits_natToDigitsAux n n 0 rest le_rfl]
  simp [parseDigits_stop _ _ h]

theorem natToDigitsAux_cons (fuel : Nat) :
    ∀ n : Nat, ∃ d ds, natToDigitsAux fuel n = d :: ds ∧ isDigitChar d = true := by
  induction fuel with
  | zero => intro n; exact ⟨digitChar n, [], rfl, isDigitChar_digitChar n⟩
  | succ fuel ih =>
    intro n
    by_cases h10 : n < 10
    · exact ⟨digitChar n, [], by simp [natToDigitsAux, h10], isDigitChar_digitChar n⟩
    · obtain ⟨d, ds, hds, hd⟩ := ih (n / 10)
      exact ⟨d, ds ++ [digitChar (n % 10)],
        by simp [natToDigitsAux, h10, hds], hd⟩

theorem natToDigits_cons (n : Nat) :
    ∃ d ds, natToDigits n = d :: ds ∧ isDigitChar d = true :=
  natToDigitsAux_cons n n

/-! ## String bodies: the parser inverts the escaper -/

theorem parseStringChars_close (rest : List Char) :
    parseStringChars (quoteChar :: rest) = some ([], rest) := rfl

theorem parseStringChars_esc_quote (rest : List Char) :
    parseStringChars (bslashChar :: quoteChar :: rest) =
      (parseStringChars rest).map (fun p => (quoteChar :: p.1, p.2)) := rfl

theorem parseStringChars_esc_bslash (rest : List Char) :
    parseStringChars (bslashChar :: bslashChar :: rest) =
      (parseStringChars rest).map (fun p => (bslashChar :: p.1, p.2)) := rfl

theorem parseStringChars_esc_n (rest : List Char) :
    parseStringChars (bslashChar :: 'n' :: rest) =
      (parseStringChars rest).map (fun p => (nlChar :: p.1, p.2)) := rfl

theorem parseStringChars_esc_t (rest : List Char) :
    parseStringChars (bslashChar :: 't' :: rest) =
      (parseStringChars rest).map (fun p => (Char.ofNat 9 :: p.1, p.2)) := rfl

theorem parseStringChars_esc_r (rest : List Char) :
    parseStringChars (bslashChar :: 'r' :: rest) =
      (parseStringChars rest).map (fun p => (Char.ofNat 13 :: p.1, p.2)) := rfl

theorem parseStringChars_esc_b (rest : List Char) :
    parseStringChars (bslashChar :: 'b' :: rest) =
      (parseStringChars rest).map (fun p => (Char.ofNat 8 :: p.1, p.2)) := rfl

theorem parseStringChars_esc_f (rest : List Char) :
    parseStringChars (bslashChar :: 'f' :: rest) =
      (parseStringChars rest).map (fun p => (Char.ofNat 12 :: p.1, p.2)) := rfl

theorem parseStringChars_other (c : Char) (rest : List Char)
    (h1 : ¬c = quoteChar) (h2 : ¬c = bslashChar) :
    parseStringChars (c :: rest) =
      (parseStringChars rest).map (fun p => (c :: p.1, p.2)) := by
  simp [parseStringChars, h1, h2]

theorem escapeChar_other (c : Char) (h1 : ¬c = quoteChar) (h2 : ¬c = bslashChar)
    (h3 : ¬c = nlChar) (h4 : ¬c = Char.ofNat 9) (h5 : ¬c = Char.ofNat 13)
    (h6 : ¬c = Char.ofNat 8) (h7 : ¬c = Char.ofNat 12) : escapeChar c = [c] := by
  simp [escapeChar, h1, h2, h3, h4, h5, h6, h7]

theorem parseStringChars_escChars (l : List Char) :
    ∀ rest : List Char,
      parseStringChars (escChars l ++ (quoteChar :: rest)) = some (l, rest) := by
  induction l with
  | nil => intro rest; exact parseStringChars_close rest
  | cons c l ih =>
    intro rest
    show parseStringChars ((escapeChar c ++ escChars l) ++ (quoteChar :: rest)) = _
    rw [List.append_assoc]
    by_cases h1 : c = quoteChar
    · subst h1
      rw [show escapeChar quoteChar = [bslashChar, quoteChar] from rfl]
      simp only [List.cons_append, List.nil_append]
      rw [parseStringChars_esc_quote, ih rest]
      rfl
    by_cases h2 : c = bslashChar
    · subst h2
      rw [show escapeChar bslashChar = [bslashChar, bslashChar] from rfl]
      simp only [List.cons_append, List.nil_append]
      rw [parseStringChars_esc_bslash, ih rest]
      rfl
    by_cases h3 : c = nlChar
    · subst h3
      rw [show escapeChar nlChar = [bslashChar, 'n'] from rfl]
      simp only [List.cons_append, List.nil_append]
      rw [parseStringChars_esc_n, ih rest]
      rfl
    by_cases h4 : c = Char.ofNat 9
    · subst h4
      rw [show escapeChar (Char.ofNat 9) = [bslashChar, 't'] from rfl]
      simp only [List.cons_append, List.nil_append]
      rw [parseStringChars_esc_t, ih rest]
      rfl
    by_cases h5 : c = Char.ofNat 13
    · subst h5
      rw [show escapeChar (Char.ofNat 13) = [bslashChar, 'r'] from rfl]
      simp only [List.cons_append, List.nil_append]
      rw [parseStringChars_esc_r, ih rest]
      rfl
    by_cases h6 : c = Char.ofNat 8
    · subst h6
      rw [show escapeChar (Char.ofNat 8) = [bslashChar, 'b'] from rfl]
      simp only [List.cons_append, List.nil_append]
      rw [parseStringChars_esc_b, ih rest]
      rfl
    by_cases h7 : c = Char.ofNat 12
    · subst h7
      rw [show escapeChar (Char.ofNat 12) = [bslashChar, 'f'] from rfl]
      simp only [List.cons_append, List.nil_append]
      rw [parseStringChars_esc_f, ih rest]
      rfl
    · rw [escapeChar_other c h1 h2 h3 h4 h5 h6 h7]
      simp only [List.cons_append, List.nil_append]
      rw [parseStringChars_other c _ h1 h2, ih rest]
      rfl

theorem parseStringChars_strQuoted (s : String) (rest : List Char) :
    parseStringChars (escChars s.data ++ (quoteChar :: rest)) = some (s.data, rest) :=
  parseStringChars_escChars s.data rest

/-! ## Sizes: fuel bounds for the parser -/

mutual

/-- Node count of a JSON value: the recursion depth budget its parse needs. -/
def sizeN : JsonValue → Nat
  | .null => 1
  | .bool _ => 1
  | .num _ => 1
  | .str _ => 1
  | .arr xs => 1 + sizeM xs
  | .obj ms => 1 + sizeR ms

/-- Node count of an array-element list. -/
def sizeM : List JsonValue → Nat
  | [] => 0
  | v :: vs => 1 + sizeN v + sizeM vs

/-- Node count of an object-member list. -/
def sizeR : List (String × JsonValue) → Nat
  | [] => 0
  | (_, v) :: ms => 1 + sizeN v + sizeR ms

end

theorem sizeN_pos (v : JsonValue) : 1 ≤ sizeN v := by
  cases v <;> simp [sizeN]

theorem natToDigits_length_pos (n : Nat) : 1 ≤ (natToDigits n).length := by
  obtain ⟨d, ds, h, _⟩ := natToDigits_cons n
  simp [h]

mutual

theorem sizeN_le : ∀ v : JsonValue, sizeN v ≤ (strChars v).length
  | .null => by simp [sizeN, strChars]
  | .bool true => by simp [sizeN, strChars]
  | .bool false => by simp [sizeN, strChars]
  | .num n => by
    simp only [sizeN, strChars, intToChars]
    split
    · simp only [List.length_cons]
      have := natToDigits_length_pos n.natAbs
      omega
    · exact natToDigits_length_pos n.natAbs
  | .str s => by simp [sizeN, strChars, strQuoted]
  | .arr xs => by
    have h := sizeM_le xs
    simp only [sizeN, strChars, List.length_cons, List.length_append,
      List.length_singleton]
    omega
  | .obj ms => by
    have h := sizeR_le ms
    simp only [sizeN, strChars, List.length_cons, List.length_append,
      List.length_singleton]
    omega

theorem sizeM_le : ∀ xs : List JsonValue, sizeM xs ≤ (strElems xs).length + 1
  | [] => by simp [sizeM, strElems]
  | [v] => by
    have h := sizeN_le v
    simp only [sizeM, strElems, List.length_nil]
    omega
  | v :: v2 :: vs => by
    have h1 := sizeN_le v
    have h2 := sizeM_le (v2 :: vs)
    have e1 : sizeM (v :: v2 :: vs) = 1 + sizeN v + sizeM (v2 :: vs) := rfl
    have e2 : strElems (v :: v2 :: vs) = strChars v ++ ',' :: strElems (v2 :: vs) := rfl
    rw [e1, e2]
    simp only [List.length_append, List.length_cons]
    omega

theorem sizeR_le : ∀ ms : List (String × JsonValue), sizeR ms ≤ (strMembers ms).length + 1
  | [] => by simp [sizeR, strMembers]
  | [(k, v)] => by
    have h := sizeN_le v
    simp only [sizeR, strMembers, List.length_append, List.length_cons,
      List.length_nil]
    omega
  | (k, v) :: m2 :: ms => by
    have h1 := sizeN_le v
    have h2 := sizeR_le (m2 :: ms)
    have e1 : sizeR ((k, v) :: m2 :: ms) = 1 + sizeN v + sizeR (m2 :: ms) := rfl
    have e2 : strMembers ((k, v) :: m2 :: ms) =
        strQuoted k ++ ':' :: strChars v ++ ',' :: strMembers (m2 :: ms) := rfl
    rw [e1, e2]
    simp only [List.length_append, List.length_cons]
    omega

end

theorem sizeM_pos (xs : List JsonValue) (h : xs ≠ []) : 1 ≤ sizeM xs := by
  cases xs with
  | nil => exact absurd rfl h
  | cons v vs => simp [sizeM]; omega

theorem sizeR_pos (ms : List (String × JsonValue)) (h : ms ≠ []) : 1 ≤ sizeR ms := by
  cases ms with
  | nil => exact absurd rfl h
  | cons m ms => obtain ⟨k, v⟩ := m; simp [sizeR]; omega

/-! ## Head shapes of serialized values -/

theorem strChars_cons_ne_rbracket (v : JsonValue) :
    ∃ c cs, strChars v = c :: cs ∧ ¬(c = ']') := by
  cases v with
  | null => exact ⟨'n', _, rfl, by decide⟩
  | bool b =>
    cases b with
    | false => exact ⟨'f', _, rfl, by decide⟩
    | true => exact ⟨'t', _, rfl, by decide⟩
  | num n =>
    by_cases hn : n < 0
    · exact ⟨'-', natToDigits n.natAbs, by simp [strChars, intToChars, hn], by decide⟩
    · obtain ⟨d, ds, hd, hdig⟩ := natToDigits_cons n.natAbs
      exact ⟨d, ds, by simp [strChars, intToChars, hn, hd],
        digit_ne_of_not_digit d ']' hdig (by decide)⟩
  | str s => exact ⟨quoteChar, _, rfl, by decide⟩
  | arr xs => exact ⟨'[', _, rfl, by decide⟩
  | obj ms => exact ⟨lbraceChar, _, rfl, by decide⟩

theorem strElems_cons_eq (x : JsonValue) (xs : List JsonValue) :
    ∃ t, strElems (x :: xs) = strChars x ++ t := by
  cases xs with
  | nil => exact ⟨[], by simp [strElems]⟩
  | cons y ys => exact ⟨',' :: strElems (y :: ys), rfl⟩

/-! ## The parser inverts the serializer -/

theorem parseElems_step (fuel : Nat) (cs : List Char) :
    parseElems (fuel + 1) cs = elemsCont (parseVal fuel cs) (parseElems fuel) := rfl

theorem parseMembers_quote (fuel : Nat) (body : List Char) :
    parseMembers (fuel + 1) (quoteChar :: body) =
      memberKeyCont (parseStringChars body) (parseVal fuel) (parseMembers fuel) := rfl

theorem elemsCont_comma (v : JsonValue) (rest1 : List Char)
    (pe : List Char → Option (List JsonValue × List Char)) :
    elemsCont (some (v, ',' :: rest1)) pe =
      (pe rest1).map (fun p => (v :: p.1, p.2)) := rfl

theorem elemsCont_close (v : JsonValue) (rest1 : List Char)
    (pe : List Char → Option (List JsonValue × List Char)) :
    elemsCont (some (v, ']' :: rest1)) pe = some ([v], rest1) := rfl

theorem memberKeyCont_colon (k rest1 : List Char)
    (pv : List Char → Option (JsonValue × List Char))
    (pm : List Char → Option (List (String × JsonValue) × List Char)) :
    memberKeyCont (some (k, ':' :: rest1)) pv pm =
      memberValCont (String.mk k) (pv rest1) pm := rfl

theorem memberValCont_comma (k : String) (v : JsonValue) (rest3 : List Char)
    (pm : List Char → Option (List (String × JsonValue) × List Char)) :
    memberValCont k (some (v, ',' :: rest3)) pm =
      (pm rest3).map (fun p => ((k, v) :: p.1, p.2)) := rfl

theorem memberValCont_close (k : String) (v : JsonValue) (rest : List Char)
    (pm : List Char → Option (List (String × JsonValue) × List Char)) :
    memberValCont k (some (v, rbraceChar :: rest)) pm = some ([(k, v)], rest) := rfl

mutual

theorem parseVal_strChars : ∀ (fuel : Nat) (v : JsonValue) (rest : List Char),
    sizeN v ≤ fuel → headIsDigit rest = false →
    parseVal fuel (strChars v ++ rest) = some (v, rest)
  | 0, v, rest => fun hs _ => absurd hs (by have := sizeN_pos v; omega)
  | fuel + 1, v, rest => fun hs hrest => by
    cases v with
    | null => exact parseVal_null_branch fuel rest
    | bool b =>
      cases b with
      | true => exact parseVal_true_branch fuel rest
      | false => exact parseVal_false_branch fuel rest
    | num n =>
      by_cases hn : n < 0
      · have e : strChars (.num n) = '-' :: natToDigits n.natAbs := by
          simp [strChars, intToChars, hn]
        obtain ⟨d, ds, hd, hdig⟩ := natToDigits_cons n.natAbs
        have hh : headIsDigit (natToDigits n.natAbs ++ rest) = true := by
          rw [hd]; simpa [headIsDigit] using hdig
        rw [e, List.cons_append, parseVal_neg_branch]
        rw [if_pos hh, parseDigits_natToDigits _ _ hrest]
        have hval : -((n.natAbs : Nat) : Int) = n := by omega
        show some (JsonValue.num (-((n.natAbs : Nat) : Int)), rest) = _
        rw [hval]
      · have e : strChars (.num n) = natToDigits n.natAbs := by
          simp [strChars, intToChars, hn]
        obtain ⟨d, ds, hd, hdig⟩ := natToDigits_cons n.natAbs
        rw [e, hd, List.cons_append, parseVal_digit_branch fuel d _ hdig]
        have hp : parseDigits 0 (d :: (ds ++ rest)) = (n.natAbs, rest) := by
          rw [← List.cons_append, ← hd]
          exact parseDigits_natToDigits _ _ hrest
        rw [hp]
        have hval : ((n.natAbs : Nat) : Int) = n := by omega
        show some (JsonValue.num ((n.natAbs : Nat) : Int), rest) = _
        rw [hval]
    | str s =>
      have e : strChars (.str s) ++ rest =
          quoteChar :: (escChars s.data ++ (quoteChar :: rest)) := by
        simp [strChars, strQuoted]
      rw [e, parseVal_str_branch, parseStringChars_strQuoted]
      rfl
    | arr xs =>
      cases xs with
      | nil =>
        have e : strChars (.arr []) ++ rest = '[' :: (']' :: rest) := by
          simp [strChars, strElems]
        rw [e, parseVal_arr_branch]
        simp
      | cons x xs1 =>
        have hsM : sizeM (x :: xs1) ≤ fuel := by
          have e : sizeN (.arr (x :: xs1)) = 1 + sizeM (x :: xs1) := rfl
          omega
        obtain ⟨c, cs, hx, hc⟩ := strChars_cons_ne_rbracket x
        obtain ⟨t, ht⟩ := strElems_cons_eq x xs1
        have e : strChars (.arr (x :: xs1)) ++ rest =
            '[' :: (strElems (x :: xs1) ++ (']' :: rest)) := by
          simp [strChars]
        rw [e, parseVal_arr_branch]
        have hhead : (strElems (x :: xs1) ++ (']' :: rest)).head? = some c := by
          rw [ht, hx]; simp
        rw [if_neg (by rw [hhead]; simp [hc])]
        rw [parseElems_strElems fuel (x :: xs1) rest (by simp) hsM]
        rfl
    | obj ms =>
      cases ms with
      | nil =>
        have e : strChars (.obj []) ++ rest = lbraceChar :: (rbraceChar :: rest) := by
          simp [strChars, strMembers]
        rw [e, parseVal_obj_branch]
        simp
      | cons m ms1 =>
        have hsR : sizeR (m :: ms1) ≤ fuel := by
          have e : sizeN (.obj (m :: ms1)) = 1 + sizeR (m :: ms1) := rfl
          omega
        obtain ⟨k, v⟩ := m
        have e : strChars (.obj ((k, v) :: ms1)) ++ rest =
            lbraceChar :: (strMembers ((k, v) :: ms1) ++ (rbraceChar :: rest)) := by
          simp [strChars]
        have hq : ∃ t, strMembers ((k, v) :: ms1) = quoteChar :: t := by
          cases ms1 with
          | nil => exact ⟨escChars k.data ++ [quoteChar] ++ (':' :: strChars v), by
              simp [strMembers, strQuoted]⟩
          | cons m2 ms2 =>
            exact ⟨escChars k.data ++ [quoteChar] ++
              (':' :: (strChars v ++ (',' :: strMembers (m2 :: ms2)))), by
              simp [strMembers, strQuoted]⟩
        obtain ⟨t, ht⟩ := hq
        rw [e, parseVal_obj_branch]
        rw [if_neg (by rw [ht]; simp; decide)]
        rw [parseMembers_strMembers fuel ((k, v) :: ms1) rest (by simp) hsR]
        rfl

theorem parseElems_strElems : ∀ (fuel : Nat) (xs : List JsonValue) (rest : List Char),
    xs ≠ [] → sizeM xs ≤ fuel →
    parseElems fuel (strElems xs ++ (']' :: rest)) = some (xs, rest)
  | 0, xs, rest => fun hne hs => absurd hs (by have := sizeM_pos xs hne; omega)
  | fuel + 1, xs, rest => fun hne hs => by
    cases xs with
    | nil => exact absurd rfl hne
    | cons v vs =>
      cases vs with
      | nil =>
        have hsN : sizeN v ≤ fuel := by
          have e : sizeM [v] = 1 + sizeN v + sizeM [] := rfl
          have e2 : sizeM ([] : List JsonValue) = 0 := rfl
          omega
        have hv := parseVal_strChars fuel v (']' :: rest) hsN rfl
        have e : strElems [v] = strChars v := rfl
        rw [e, parseElems_step, hv, elemsCont_close]
      | cons v2 vs2 =>
        have eM : sizeM (v :: v2 :: vs2) = 1 + sizeN v + sizeM (v2 :: vs2) := rfl
        have hsN : sizeN v ≤ fuel := by omega
        have hsM : sizeM (v2 :: vs2) ≤ fuel := by omega
        have e : strElems (v :: v2 :: vs2) ++ (']' :: rest) =
            strChars v ++ (',' :: (strElems (v2 :: vs2) ++ (']' :: rest))) := by
          have e1 : strElems (v :: v2 :: vs2) =
              strChars v ++ ',' :: strElems (v2 :: vs2) := rfl
          rw [e1]
          simp [List.append_assoc]
        have hv := parseVal_strChars fuel v
          (',' :: (strElems (v2 :: vs2) ++ (']' :: rest))) hsN rfl
        rw [e, parseElems_step, hv, elemsCont_comma]
        rw [parseElems_strElems fuel (v2 :: vs2) rest (by simp) hsM]
        rfl

theorem parseMembers_strMembers :
    ∀ (fuel : Nat) (ms : List (String × JsonValue)) (rest : List Char),
    ms ≠ [] → sizeR ms ≤ fuel →
    parseMembers fuel (strMembers ms ++ (rbraceChar :: rest)) = some (ms, rest)
  | 0, ms, rest => fun hne hs => absurd hs (by have := sizeR_pos ms hne; omega)
  | fuel + 1, ms, rest => fun hne hs => by
    cases ms with
    | nil => exact absurd rfl hne
    | cons m ms1 =>
      obtain ⟨k, v⟩ := m
      cases ms1 with
      | nil =>
        have hsN : sizeN v ≤ fuel := by
          have e : sizeR [(k, v)] = 1 + sizeN v + sizeR [] := rfl
          have e2 : sizeR ([] : List (String × JsonValue)) = 0 := rfl
          omega
        have e : strMembers [(k, v)] ++ (rbraceChar :: rest) =
            quoteChar :: (escChars k.data ++
              (quoteChar :: (':' :: (strChars v ++ (rbraceChar :: rest))))) := by
          have e1 : strMembers [(k, v)] = strQuoted k ++ ':' :: strChars v := rfl
          rw [e1]
          simp [strQuoted, List.append_assoc]
        have hv := parseVal_strChars fuel v (rbraceChar :: rest) hsN rfl
        rw [e, parseMembers_quote, parseStringChars_strQuoted, memberKeyCont_colon,
          hv, memberValCont_close]
      | cons m2 ms2 =>
        have eR : sizeR ((k, v) :: m2 :: ms2) = 1 + sizeN v + sizeR (m2 :: ms2) := rfl
        have hsN : sizeN v ≤ fuel := by omega
        have hsR : sizeR (m2 :: ms2) ≤ fuel := by omega
        have e : strMembers ((k, v) :: m2 :: ms2) ++ (rbraceChar :: rest) =
            quoteChar :: (escChars k.data ++ (quoteChar :: (':' :: (strChars v ++
              (',' :: (strMembers (m2 :: ms2) ++ (rbraceChar :: rest))))))) := by
          have e1 : strMembers ((k, v) :: m2 :: ms2) =
              strQuoted k ++ ':' :: strChars v ++ ',' :: strMembers (m2 :: ms2) := rfl
          rw [e1]
          simp [strQuoted, List.append_assoc]
        have hv := parseVal_strChars fuel v
          (',' :: (strMembers (m2 :: ms2) ++ (rbraceChar :: rest))) hsN rfl
        rw [e, parseMembers_quote, parseStringChars_strQuoted, memberKeyCont_colon,
          hv, memberValCont_comma]
        rw [parseMembers_strMembers fuel (m2 :: ms2) rest (by simp) hsR]
        rfl

end

/-- Roundtrip at the top level: parsing a serialized JSON value yields
the value back (the model of `JSON.parse(JSON.stringify(v)) = v`). -/
theorem jsonParseL_strChars (v : JsonValue) : jsonParseL (strChars v) = some v := by
  have h := parseVal_strChars ((strChars v).length + 1) v []
    (by have := sizeN_le v; omega) rfl
  rw [List.append_nil] at h
  rw [jsonParseL, h]

/-! ## NDJSON decoding lemmas -/

theorem mapJsonParse_none (ls : List (List Char)) (l : List Char)
    (hm : l ∈ ls) (hfail : jsonParseL l = none) : mapJsonParse ls = none := by
  induction ls with
  | nil => cases hm
  | cons x xs ih =>
    rcases List.mem_cons.mp hm with h | h
    · subst h
      simp [mapJsonParse, hfail]
    · cases hx : jsonParseL x with
      | none => simp [mapJsonParse, hx]
      | some v => simp [mapJsonParse, hx, ih h]

theorem mapJsonParse_forall₂ (ls : List (List Char)) :
    ∀ vs : List JsonValue, mapJsonParse ls = some vs →
      List.Forall₂ (fun l v => jsonParseL l = some v) ls vs := by
  induction ls with
  | nil =>
    intro vs h
    simp only [mapJsonParse, Option.some.injEq] at h
    subst h
    exact List.Forall₂.nil
  | cons x xs ih =>
    intro vs h
    cases hx : jsonParseL x with
    | none => rw [mapJsonParse, hx] at h; cases h
    | some v =>
      rw [mapJsonParse, hx] at h
      cases hxs : mapJsonParse xs with
      | none => rw [hxs] at h; cases h
      | some ws =>
        rw [hxs] at h
        simp only [Option.map_some', Option.some.injEq] at h
        subst h
        exact List.Forall₂.cons hx (ih ws hxs)

theorem runExportEvents_data (chunks : List (List Char)) :
    ∀ (evs : List Ev) (buf : List Char),
      runExportEvents (chunks.map Ev.data ++ evs) buf =
        runExportEvents evs (chunks.foldl (fun b c => b ++ c) buf) := by
  induction chunks with
  | nil => intro evs buf; rfl
  | cons c cs ih =>
    intro evs buf
    simp only [List.map_cons, List.cons_append]
    rw [show runExportEvents (Ev.data c :: (cs.map Ev.data ++ evs)) buf =
        runExportEvents (cs.map Ev.data ++ evs) (buf ++ c) from rfl, ih]
    rfl

/-! ## Query encoder lemmas -/

theorem keyCount_qsStringify (ps : List (String × Option (List Char))) (k : String) :
    keyCount (qsStringify ps) k =
      ps.countP (fun p => decide (p.1 = k) && p.2.isSome) := by
  induction ps with
  | nil => rfl
  | cons p ps ih =>
    obtain ⟨k1, v1⟩ := p
    cases v1 with
    | none => simp [qsStringify, keyCount, List.countP_cons, ih, keyCount] at ih ⊢; omega
    | some v =>
      simp [qsStringify, keyCount, List.filterMap_cons, List.countP_cons] at ih ⊢
      omega

theorem lookupKey_qsStringify_head (k : String) (v : List Char)
    (ps : List (String × Option (List Char))) :
    lookupKey (qsStringify ((k, some v) :: ps)) k = some v := by
  simp [lookupKey, qsStringify, List.filterMap_cons, List.find?]

theorem keyCount_queryEntries_p (f : Filter) :
    keyCount (queryEntries f) "_p" = if f.projection.isSome then 1 else 0 := by
  rw [queryEntries, keyCount_qsStringify]
  cases hq : f.projection <;> simp [filterPairs, List.countP_cons, hq]

theorem mem_queryEntries_p (f : Filter) (ps : List String)
    (h : f.projection = some ps) : ("_p", joinComma ps) ∈ queryEntries f := by
  rw [queryEntries]
  exact List.mem_filterMap.mpr ⟨("_p", some (joinComma ps)), by simp [filterPairs, h], rfl⟩

/-! ## Claim theorems -/

/-- C1: for every Filter, `queryFromFilter` emits exactly one query
entry per populated field under its fixed key (`_q` the compact JSON of
the match expression, `_l`/`_sk` the decimal digits of limit/skip, `_p`
the comma-joined projection, `_s` the sort verbatim, `_rawp` the compact
JSON of the raw projection), an absent field contributes no entry for
its key, and no entry carries any other key. -/
theorem claim_C1 (f : Filter) :
    (keyCount (queryEntries f) "_q" = if f.mongoQuery.isSome then 1 else 0)
    ∧ (keyCount (queryEntries f) "_l" = if f.limit.isSome then 1 else 0)
    ∧ (keyCount (queryEntries f) "_p" = if f.projection.isSome then 1 else 0)
    ∧ (keyCount (queryEntries f) "_s" = if f.sort.isSome then 1 else 0)
    ∧ (keyCount (queryEntries f) "_sk" = if f.skip.isSome then 1 else 0)
    ∧ (keyCount (queryEntries f) "_rawp" = if f.rawProjection.isSome then 1 else 0)
    ∧ (∀ mq, f.mongoQuery = some mq → ("_q", strChars (.obj mq)) ∈ queryEntries f)
    ∧ (∀ n, f.limit = some n → ("_l", natToDigits n) ∈ queryEntries f)
    ∧ (∀ ps, f.projection = some ps → ("_p", joinComma ps) ∈ queryEntries f)
    ∧ (∀ s, f.sort = some s → ("_s", s.data) ∈ queryEntries f)
    ∧ (∀ n, f.skip = some n → ("_sk", natToDigits n) ∈ queryEntries f)
    ∧ (∀ rp, f.rawProjection = some rp → ("_rawp", strChars (.obj rp)) ∈ queryEntries f)
    ∧ (∀ p, p ∈ queryEntries f → p.1 = "_q" ∨ p.1 = "_l" ∨ p.1 = "_p" ∨
        p.1 = "_s" ∨ p.1 = "_sk" ∨ p.1 = "_rawp") := by
  refine ⟨?_, ?_, ?_, ?_, ?_, ?_, ?_, ?_, ?_, ?_, ?_, ?_, ?_⟩
  · rw [queryEntries, keyCount_qsStringify]
    cases hq : f.mongoQuery <;> simp [filterPairs, List.countP_cons, hq]
  · rw [queryEntries, keyCount_qsStringify]
    cases hq : f.limit <;> simp [filterPairs, List.countP_cons, hq]
  · exact keyCount_queryEntries_p f
  · rw [queryEntries, keyCount_qsStringify]
    cases hq : f.sort <;> simp [filterPairs, List.countP_cons, hq]
  · rw [queryEntries, keyCount_qsStringify]
    cases hq : f.skip <;> simp [filterPairs, List.countP_cons, hq]
  · rw [queryEntries, keyCount_qsStringify]
    cases hq : f.rawProjection <;> simp [filterPairs, List.countP_cons, hq]
  · intro mq h
    rw [queryEntries]
    exact List.mem_filterMap.mpr
      ⟨("_q", some (strChars (.obj mq))), by simp [filterPairs, h], rfl⟩
  · intro n h
    rw [queryEntries]
    exact List.mem_filterMap.mpr
      ⟨("_l", some (natToDigits n)), by simp [filterPairs, h], rfl⟩
  · exact mem_queryEntries_p f
  · intro s h
    rw [queryEntries]
    exact List.mem_filterMap.mpr
      ⟨("_s", some s.data), by simp [filterPairs, h], rfl⟩
  · intro n h
    rw [queryEntries]
    exact List.mem_filterMap.mpr
      ⟨("_sk", some (natToDigits n)), by simp [filterPairs, h], rfl⟩
  · intro rp h
    rw [queryEntries]
    exact List.mem_filterMap.mpr
      ⟨("_rawp", some (strChars (.obj rp))), by simp [filterPairs, h], rfl⟩
  · intro pe hp
    rw [queryEntries] at hp
    rcases List.mem_filterMap.mp hp with ⟨x, hx, he⟩
    cases hv : x.2 with
    | none => rw [hv] at he; cases he
    | some v =>
      rw [hv] at he
      simp only [Option.map_some', Option.some.injEq] at he
      subst he
      simp only [filterPairs, List.mem_cons, List.not_mem_nil, or_false] at hx
      rcases hx with h | h | h | h | h | h <;> rw [h] <;> simp

/-- C1 witness: a fully populated filter yields all six entries. -/
theorem claim_C1_witness :
    ("_q", strChars (.obj [("a", .num 1)])) ∈
        queryEntries ⟨some [("a", .num 1)], some 5, some 2, some ["a", "b"],
          some [("b", .num 0)], some "a"⟩
    ∧ ("_l", natToDigits 5) ∈
        queryEntries ⟨some [("a", .num 1)], some 5, some 2, some ["a", "b"],
          some [("b", .num 0)], some "a"⟩
    ∧ ("_p", joinComma ["a", "b"]) ∈
        queryEntries ⟨some [("a", .num 1)], some 5, some 2, some ["a", "b"],
          some [("b", .num 0)], some "a"⟩
    ∧ ("_s", "a".data) ∈
        queryEntries ⟨some [("a", .num 1)], some 5, some 2, some ["a", "b"],
          some [("b", .num 0)], some "a"⟩
    ∧ ("_sk", natToDigits 2) ∈
        queryEntries ⟨some [("a", .num 1)], some 5, some 2, some ["a", "b"],
          some [("b", .num 0)], some "a"⟩
    ∧ ("_rawp", strChars (.obj [("b", .num 0)])) ∈
        queryEntries ⟨some [("a", .num 1)], some 5, some 2, some ["a", "b"],
          some [("b", .num 0)], some "a"⟩ := by
  have h := claim_C1 ⟨some [("a", .num 1)], some 5, some 2, some ["a", "b"],
    some [("b", .num 0)], some "a"⟩
  exact ⟨h.2.2.2.2.2.2.1 _ rfl, h.2.2.2.2.2.2.2.1 _ rfl,
    h.2.2.2.2.2.2.2.2.1 _ rfl, h.2.2.2.2.2.2.2.2.2.1 _ rfl,
    h.2.2.2.2.2.2.2.2.2.2.1 _ rfl, h.2.2.2.2.2.2.2.2.2.2.2.1 _ rfl⟩

/-- C7: a Filter with zero populated fields produces an empty query
(no key-value pairs), and an absent Filter produces an absent query. -/
theorem claim_C7 :
    queryFromFilter none = none
    ∧ (∀ f : Filter, f.mongoQuery = none → f.limit = none → f.skip = none →
        f.projection = none → f.rawProjection = none → f.sort = none →
        queryFromFilter (some f) = some []) := by
  constructor
  · rfl
  · intro f h1 h2 h3 h4 h5 h6
    simp [queryFromFilter, queryEntries, filterPairs, qsStringify,
      h1, h2, h3, h4, h5, h6]

/-- C7 witness: the empty filter serializes to the empty query. -/
theorem claim_C7_witness :
    queryFromFilter (some ⟨none, none, none, none, none, none⟩) = some [] :=
  claim_C7.2 ⟨none, none, none, none, none, none⟩ rfl rfl rfl rfl rfl rfl

/-- C10: a Filter whose projection is present but empty still emits a
`_p` entry, whose value is the empty string (the entry is not omitted),
because `[].join(',')` is `''` and `qs.stringify` keeps empty-string
values. -/
theorem claim_C10 (f : Filter) (hp : f.projection = some []) :
    keyCount (queryEntries f) "_p" = 1
    ∧ ("_p", ([] : List Char)) ∈ queryEntries f := by
  constructor
  · have h := keyCount_queryEntries_p f
    rw [hp] at h
    simpa using h
  · exact mem_queryEntries_p f [] hp

/-- C10 witness: a filter with an empty projection list. -/
theorem claim_C10_witness :
    keyCount (queryEntries ⟨none, none, none, some [], none, none⟩) "_p" = 1
    ∧ ("_p", ([] : List Char)) ∈
        queryEntries ⟨none, none, none, some [], none, none⟩ :=
  claim_C10 ⟨none, none, none, some [], none, none⟩ rfl

/-- C9: for every Filter carrying a match expression, the `_q` entry
holds its compact JSON text, and JSON-decoding that text recovers the
original match expression (in particular for `«a»: 1`). -/
theorem claim_C9 (f : Filter) (mq : List (String × JsonValue))
    (h : f.mongoQuery = some mq) :
    lookupKey (queryEntries f) "_q" = some (strChars (.obj mq))
    ∧ jsonParseL (strChars (.obj mq)) = some (.obj mq) := by
  constructor
  · have e : filterPairs f = ("_q", some (strChars (.obj mq))) ::
        [("_l", f.limit.map natToDigits),
         ("_p", f.projection.map joinComma),
         ("_s", f.sort.map String.data),
         ("_sk", f.skip.map natToDigits),
         ("_rawp", f.rawProjection.map (fun q => strChars (.obj q)))] := by
      simp [filterPairs, h]
    rw [queryEntries, e]
    exact lookupKey_qsStringify_head _ _ _
  · exact jsonParseL_strChars (.obj mq)

/-- C9 witness: the round trip at `«a»: 1`. -/
theorem claim_C9_witness :
    lookupKey (queryEntries ⟨some [("a", .num 1)], none, none, none, none, none⟩)
        "_q" = some (strChars (.obj [("a", .num 1)]))
    ∧ jsonParseL (strChars (.obj [("a", .num 1)])) =
        some (.obj [("a", .num 1)]) :=
  claim_C9 ⟨some [("a", .num 1)], none, none, none, none, none⟩ [("a", .num 1)] rfl

/-- C2: if any retained (non-blank) line of the accumulated buffer fails
to parse as JSON — including a trailing unterminated line — the whole
NDJSON decode fails and `getExport` settles with a parse error, never a
partial array; when every line parses, the caller receives the complete
parsed sequence, one record per retained line in order. -/
theorem claim_C2 :
    (∀ (data l : List Char), l ∈ ndjsonLines data → jsonParseL l = none →
        ndjsonParse data = none)
    ∧ (∀ (data : List Char) (vs : List JsonValue), ndjsonParse data = some vs →
        List.Forall₂ (fun l v => jsonParseL l = some v) (ndjsonLines data) vs)
    ∧ (∀ chunks : List (List Char), ndjsonParse (bufferOf chunks) = none →
        runExportEvents (chunks.map Ev.data ++ [Ev.ended]) [] =
          some (.error .parseError))
    ∧ (∀ (chunks : List (List Char)) (vs : List JsonValue),
        ndjsonParse (bufferOf chunks) = some vs →
        runExportEvents (chunks.map Ev.data ++ [Ev.ended]) [] = some (.ok vs)) := by
  refine ⟨?_, ?_, ?_, ?_⟩
  · intro data l hm hfail
    exact mapJsonParse_none (ndjsonLines data) l hm hfail
  · intro data vs h
    exact mapJsonParse_forall₂ (ndjsonLines data) vs h
  · intro chunks h
    rw [runExportEvents_data chunks [Ev.ended] []]
    simp [runExportEvents, bufferOf] at h ⊢
    rw [h]
  · intro chunks vs h
    rw [runExportEvents_data chunks [Ev.ended] []]
    simp [runExportEvents, bufferOf] at h ⊢
    rw [h]

/-- C2 witness: the spec's own example — a buffer whose trailing line is
unterminated fails as a whole. -/
theorem claim_C2_witness :
    ndjsonParse ("\x7b\"id\":\"x\"\x7d\n\x7b\"id\":\"y\"".data) = none :=
  claim_C2.1 ("\x7b\"id\":\"x\"\x7d\n\x7b\"id\":\"y\"".data)
    ("\x7b\"id\":\"y\"".data) (by decide) (by rfl)

/-- C3: a buffer whose non-blank lines are all valid JSON decodes to the
parsed records in input line order (blank lines, such as the one a
trailing newline produces, are discarded); in particular the two-record
example decodes to its two objects. -/
theorem claim_C3 :
    ndjsonParse ("\x7b\"id\":\"x\"\x7d\n\x7b\"id\":\"y\"\x7d\n".data) =
        some [.obj [("id", .str "x")], .obj [("id", .str "y")]]
    ∧ (∀ (data : List Char) (vs : List JsonValue), ndjsonParse data = some vs →
        List.Forall₂ (fun l v => jsonParseL l = some v) (ndjsonLines data) vs) := by
  constructor
  · rfl
  · intro data vs h
    exact mapJsonParse_forall₂ (ndjsonLines data) vs h

/-- C3 witness: the general ordering statement applied to the concrete
two-record example. -/
theorem claim_C3_witness :
    List.Forall₂ (fun l v => jsonParseL l = some v)
      (ndjsonLines ("\x7b\"id\":\"x\"\x7d\n\x7b\"id\":\"y\"\x7d\n".data))
      [.obj [("id", .str "x")], .obj [("id", .str "y")]] :=
  claim_C3.2 ("\x7b\"id\":\"x\"\x7d\n\x7b\"id\":\"y\"\x7d\n".data)
    [.obj [("id", .str "x")], .obj [("id", .str "y")]] claim_C3.1

/-- C8: when the export stream raises an error before completing — after
any number of data chunks, whatever they contain — the promise settles
with that stream error: not a parse failure (`ExportError.parseError`)
and not a shortened `.ok` result built from the chunks received so far. -/
theorem claim_C8 (chunks : List (List Char)) (e : RequestErrorModel)
    (rest : List Ev) :
    runExportEvents (chunks.map Ev.data ++ Ev.errored e :: rest) [] =
      some (.error (.streamError e)) := by
  rw [runExportEvents_data chunks (Ev.errored e :: rest) []]
  rfl

/-- The classifier never yields an empty message, so `http-errors` never
substitutes its default reason phrase and the message passes through. -/
theorem getGotErrorMessage_ne_empty (e : RequestErrorModel) :
    getGotErrorMessage e ≠ "" := by
  rw [getGotErrorMessage]
  cases hb : responseBodyMessage e with
  | none =>
    by_cases hm : e.message = "" <;> simp [hm]
  | some m =>
    rcases e with ⟨r, msg⟩
    rcases r with _ | r
    · cases hb
    · rcases r with ⟨sc, b⟩
      rcases b with _ | b
      · cases hb
      · rcases b with ⟨bm⟩
        rcases bm with _ | bm
        · cases hb
        · simp only [responseBodyMessage] at hb
          by_cases hbm : bm = ""
          · rw [if_pos hbm] at hb; cases hb
          · rw [if_neg hbm] at hb
            cases hb
            simpa using hbm

/-- C4 counterexample: a failed response whose JSON body carries the
string field `message: ""` — a string field named `message` — does not
have that string used: the body message is tested for JavaScript
truthiness, so the empty string falls through to the failure's own
message text. -/
theorem claim_C4_counterexample :
    (getHttpErrors ⟨some ⟨400, some ⟨some ""⟩⟩,
        "Response code 400 (Bad Request)"⟩).message =
      "Response code 400 (Bad Request)"
    ∧ ¬((getHttpErrors ⟨some ⟨400, some ⟨some ""⟩⟩,
        "Response code 400 (Bad Request)"⟩).message = "") := by
  constructor
  · rfl
  · decide

/-- C4 (amended): the classified message is chosen by priority — a
non-empty string field `message` inside the failed response's JSON body;
else the failure's own message text when non-empty; else the fixed
fallback `Something went wrong` — and the 400-with-body example yields
status 400 and message `A message of error`. -/
theorem claim_C4 :
    (∀ (e : RequestErrorModel) (r : GotResponse) (b : ErrorBody) (m : String),
        e.response = some r → r.body = some b → b.message = some m → ¬(m = "") →
        (getHttpErrors e).message = m)
    ∧ (∀ e : RequestErrorModel, responseBodyMessage e = none → ¬(e.message = "") →
        (getHttpErrors e).message = e.message)
    ∧ (∀ e : RequestErrorModel, responseBodyMessage e = none → e.message = "" →
        (getHttpErrors e).message = "Something went wrong")
    ∧ getHttpErrors ⟨some ⟨400, some ⟨some "A message of error"⟩⟩,
        "Response code 400 (Bad Request)"⟩ = ⟨400, "A message of error"⟩ := by
  refine ⟨?_, ?_, ?_, rfl⟩
  · intro e r b m hr hb hm hne
    have h : responseBodyMessage e = some m := by
      simp [responseBodyMessage, hr, hb, hm, hne]
    rw [show (getHttpErrors e).message = getGotErrorMessage e from rfl,
      getGotErrorMessage, h]
  · intro e h hne
    rw [show (getHttpErrors e).message = getGotErrorMessage e from rfl,
      getGotErrorMessage, h, if_neg hne]
  · intro e h hm
    rw [show (getHttpErrors e).message = getGotErrorMessage e from rfl,
      getGotErrorMessage, h, if_pos hm]

/-- C4 witness: the priority branches at concrete failures. -/
theorem claim_C4_witness :
    (getHttpErrors ⟨some ⟨400, some ⟨some "A message of error"⟩⟩,
        "Response code 400 (Bad Request)"⟩).message = "A message of error"
    ∧ (getHttpErrors ⟨some ⟨500, none⟩, "socket hang up"⟩).message =
        "socket hang up"
    ∧ (getHttpErrors ⟨some ⟨500, none⟩, ""⟩).message = "Something went wrong" :=
  ⟨claim_C4.1 _ ⟨400, some ⟨some "A message of error"⟩⟩ ⟨some "A message of error"⟩
      "A message of error" rfl rfl rfl (by decide),
    claim_C4.2.1 ⟨some ⟨500, none⟩, "socket hang up"⟩ rfl (by decide),
    claim_C4.2.2.1 ⟨some ⟨500, none⟩, ""⟩ rfl rfl⟩

/-- C5: `CrudClient.delete` rejects locally — before any request is
issued, hence the `DeleteResult.localError` constructor — with the fixed
`Mongo query is required` error of status 400 exactly when the filter's
match expression is absent or the empty object; otherwise no local
rejection occurs and the DELETE request is issued with the filter's
query.  (The fixed message contains the spec's phrase: it is
`Mongo ` ++ `query is required`.) -/
theorem claim_C5 :
    (∀ (f : Filter) (ex : Except RequestErrorModel Nat),
        isEmptyMongoQuery f.mongoQuery = true →
        crudDelete f ex = .localError ⟨400, "Mongo " ++ "query is required"⟩)
    ∧ (∀ (f : Filter) (ex : Except RequestErrorModel Nat),
        isEmptyMongoQuery f.mongoQuery = false →
        ∃ out, crudDelete f ex = .issued (queryFromFilter (some f)) out) := by
  constructor
  · intro f ex h
    rw [crudDelete.eq_def, if_pos h]
    rfl
  · intro f ex h
    exact ⟨_, by rw [crudDelete.eq_def, if_neg (by rw [h]; exact Bool.false_ne_true)]⟩

/-- C5 witness: an absent match expression is rejected locally; a
populated one issues the request. -/
theorem claim_C5_witness :
    crudDelete ⟨none, none, none, none, none, none⟩ (.ok 0) =
      .localError ⟨400, "Mongo " ++ "query is required"⟩
    ∧ ∃ out, crudDelete ⟨some [("a", .num 1)], none, none, none, none, none⟩
        (.ok 3) =
        .issued (queryFromFilter (some ⟨some [("a", .num 1)], none, none, none,
          none, none⟩)) out :=
  ⟨claim_C5.1 ⟨none, none, none, none, none, none⟩ (.ok 0) rfl,
    claim_C5.2 ⟨some [("a", .num 1)], none, none, none, none, none⟩ (.ok 3) rfl⟩

/-- C6 counterexample: a failed exchange whose response carries the
nonstandard status 399 is classified as 500, not 399 — `http-errors`
collapses unknown codes outside 400–599 to 500 — and a (transport-level)
response with code 0 is treated as carrying no status at all. -/
theorem claim_C6_counterexample :
    (getHttpErrors ⟨some ⟨399, none⟩, "boom"⟩).statusCode = 500
    ∧ ¬((getHttpErrors ⟨some ⟨399, none⟩, "boom"⟩).statusCode = 399)
    ∧ (getHttpErrors ⟨some ⟨0, none⟩, "boom"⟩).statusCode = 500 := by
  refine ⟨rfl, ?_, rfl⟩
  decide

/-- C6 (amended): the classified status equals the failed response's
status code whenever a response exists and its code lies in the error
range 400–599; when the failure carries no response at all the status
defaults to 500. -/
theorem claim_C6 :
    (∀ (e : RequestErrorModel) (r : GotResponse), e.response = some r →
        400 ≤ r.statusCode → r.statusCode < 600 →
        (getHttpErrors e).statusCode = r.statusCode)
    ∧ (∀ e : RequestErrorModel, e.response = none →
        (getHttpErrors e).statusCode = 500) := by
  constructor
  · intro e r hr h4 h6
    have hnz : r.statusCode ≠ 0 := by omega
    have hsc : getGotErrorStatusCode e = some r.statusCode := by
      simp [getGotErrorStatusCode, hr, hnz]
    rw [show (getHttpErrors e).statusCode =
        httpErrorsStatus ((getGotErrorStatusCode e).getD 500) from rfl, hsc]
    have hlt : ¬(r.statusCode < 400) := by omega
    have hge : ¬(600 ≤ r.statusCode) := by omega
    simp [httpErrorsStatus, hlt, hge]
  · intro e h
    rw [show (getHttpErrors e).statusCode =
        httpErrorsStatus ((getGotErrorStatusCode e).getD 500) from rfl,
      getGotErrorStatusCode, h]
    decide

/-- C6 witness: a 404 response keeps its status; a transport failure
without a response becomes 500. -/
theorem claim_C6_witness :
    (getHttpErrors ⟨some ⟨404, none⟩, "x"⟩).statusCode = 404
    ∧ (getHttpErrors ⟨none, "socket hang up"⟩).statusCode = 500 :=
  ⟨claim_C6.1 ⟨some ⟨404, none⟩, "x"⟩ ⟨404, none⟩ rfl (by decide) (by decide),
    claim_C6.2 ⟨none, "socket hang up"⟩ rfl⟩

end CrudSpec
